import Mathlib

/-!
Shallow embedding of the six tabular-data transforms of
`templates/python_task_1.py` (a pandas utility file), together with
state-passing variants that record the in-place column assignments the
Python code performs on the caller's DataFrame.

Modelling conventions:
- numeric cell values are rationals (`ℚ`); an unset / NaN cell is
  `Option.none`, and every ordering comparison against NaN is `false`,
  exactly as in pandas;
- a DataFrame column is a Lean list; positional row indices are `ℕ`
  (pandas' default `RangeIndex`);
- `pandas.Series.unique` preserves first-seen order, modelled by
  `uniqueVals`; `list.sort()` / sorted groupby keys are modelled by
  `List.insertionSort`;
- a parsed timestamp is reduced to the two fields `time_check` reads:
  its day of week (`Fin 7`, Monday = 0) and its time of day in seconds
  since midnight (so `00:00:00` is `0` and `23:59:59` is `86399`).
-/

/-- Model of `pandas.Series.unique`: the distinct values of a list, keeping the
first occurrence of each value, in first-seen order. -/
def uniqueVals {α : Type} [DecidableEq α] : List α → List α
  | [] => []
  | x :: xs => x :: (uniqueVals xs).filter (fun y => y ≠ x)

/-- One row of the input table of `generate_car_matrix`. -/
structure CarRow where
  id_1 : ℤ
  id_2 : ℤ
  car : ℚ
deriving DecidableEq, Repr

/-- A pandas DataFrame used as a labelled matrix: an index of row
labels, a list of column labels, and a cell map; `none` is NaN. -/
structure CarMatrix where
  rowLabels : List ℤ
  colLabels : List ℤ
  cell : ℤ → ℤ → Option ℚ

/-- One `car_matrix.loc[row['id_1'], row['id_2']] = row['car']`
assignment of the Python loop. -/
def matrix_set (f : ℤ → ℤ → Option ℚ) (r : CarRow) : ℤ → ℤ → Option ℚ :=
  fun a b => if a = r.id_1 ∧ b = r.id_2 then some r.car else f a b

/-- The function `generate_car_matrix`: build an empty DataFrame indexed by the
unique `id_1` values with the unique `id_2` values as columns (all
cells NaN), then fill cells row by row with `df.iterrows()`. -/
def generate_car_matrix (df : List CarRow) : CarMatrix :=
  { rowLabels := uniqueVals (df.map (fun r => r.id_1))
    colLabels := uniqueVals (df.map (fun r => r.id_2))
    cell := df.foldl matrix_set (fun _ _ => none) }

/-- Input table of `get_type_count`: the `car` column, plus the state of
the derived `car_type` column (`none` while the column is absent). -/
structure CarTable where
  car : List ℚ
  car_type : Option (List String)
deriving DecidableEq, Repr

/-- The label `pd.cut(df['car'], bins=[-inf, 15, 25, inf],
labels=['low', 'medium', 'high'], right=False)` assigns to one value:
left-closed right-open bins, so `[-inf,15) → low`, `[15,25) → medium`,
`[25,inf) → high`. -/
def car_type_label (v : ℚ) : String :=
  if v < 15 then "low" else if v < 25 then "medium" else "high"

/-- The function `get_type_count`, state-passing: the assignment
`df['car_type'] = pd.cut(...)` writes the derived column into the
caller's DataFrame; `.value_counts()` on the categorical column reports
every category, zero counts included; `dict(sorted(...))` orders the
entries alphabetically (`high < low < medium`). Returns the sorted
count dictionary and the post-call state of the caller's table. -/
def get_type_count (df : CarTable) : List (String × ℕ) × CarTable :=
  let labels := df.car.map car_type_label
  ([("high", labels.count "high"),
    ("low", labels.count "low"),
    ("medium", labels.count "medium")],
   { car := df.car, car_type := some labels })

/-- Input table of `get_bus_indexes`. -/
structure BusTable where
  bus : List ℚ
deriving DecidableEq, Repr

/-- Model of `Series.mean()`: NaN (here `none`) on an empty column, otherwise
the arithmetic mean. -/
def series_mean (l : List ℚ) : Option ℚ :=
  if l.length = 0 then none else some (l.sum / l.length)

/-- Comparison `t < v` where `t` may be NaN: any comparison against NaN is
false. -/
def nan_lt (t : Option ℚ) (v : ℚ) : Bool :=
  match t with
  | none => false
  | some x => decide (x < v)

/-- The function `get_bus_indexes`: positional indices whose `bus` value strictly
exceeds twice the column mean (`df[df['bus'] > 2 * bus_mean].index`),
then `bus_indexes.sort()`. -/
def get_bus_indexes (df : BusTable) : List ℕ :=
  let threshold := (series_mean df.bus).map (fun m => 2 * m)
  let bus_indexes :=
    (df.bus.enum.filter (fun p => nan_lt threshold p.2)).map Prod.fst
  bus_indexes.insertionSort (fun i j => i ≤ j)

/-- One row of the input table of `filter_routes`. -/
structure RouteRow where
  route : String
  truck : ℚ
deriving DecidableEq, Repr

/-- Input table of `filter_routes`. -/
structure RouteTable where
  rows : List RouteRow
deriving DecidableEq, Repr

/-- The `truck` values of the group of rows with the given `route`. -/
def route_group (df : RouteTable) (r : String) : List ℚ :=
  (df.rows.filter (fun x => x.route = r)).map (fun x => x.truck)

/-- The function `filter_routes`: `df.groupby('route')['truck'].mean()` (groupby
sorts the distinct keys ascending), keep the routes whose group mean
strictly exceeds 7, then `filtered_routes.sort()`. -/
def filter_routes (df : RouteTable) : List String :=
  let routes :=
    (uniqueVals (df.rows.map (fun x => x.route))).insertionSort
      (fun a b => a ≤ b)
  let filtered := routes.filter (fun r =>
    let g := route_group df r
    decide (7 < g.sum / g.length))
  filtered.insertionSort (fun a b => a ≤ b)

/-- A masked in-place multiplication
`modified[mask-of-original] *= k`: the mask is evaluated on the
original cell (NaN never satisfies it), the multiplication hits the
current cell. -/
def maskedMul (orig cur : Option ℚ) (p : ℚ → Bool) (k : ℚ) : Option ℚ :=
  match orig with
  | none => cur
  | some v => if p v then cur.map (fun c => c * k) else cur

/-- Round to the nearest integer, ties to even (numpy / pandas
rounding). -/
def roundHalfEven (x : ℚ) : ℤ :=
  let f := Int.floor x
  let frac := x - f
  if frac < 1 / 2 then f
  else if 1 / 2 < frac then f + 1
  else if f % 2 = 0 then f else f + 1

/-- Model of `Series.round(1)`: round to one decimal place, ties to even. -/
def round1 (x : ℚ) : ℚ :=
  (roundHalfEven (10 * x) : ℚ) / 10

/-- The function `multiply_matrix`: copy the input, multiply cells whose original
value exceeds 20 by 0.75, cells whose original value is at most 20 by
1.25 (both masks taken from the unmodified input), then round to one
decimal. -/
def multiply_matrix (matrix : CarMatrix) : CarMatrix :=
  { rowLabels := matrix.rowLabels
    colLabels := matrix.colLabels
    cell := fun a b =>
      let orig := matrix.cell a b
      let m1 := maskedMul orig orig (fun v => decide (20 < v)) (3 / 4)
      let m2 := maskedMul orig m1 (fun v => decide (v ≤ 20)) (5 / 4)
      m2.map round1 }

/-- A parsed pandas timestamp, reduced to the fields `time_check`
reads: `dt.dayofweek` (Monday = 0 … Sunday = 6) and the time of day in
seconds since midnight. -/
structure PdTimestamp where
  dayOfWeek : Fin 7
  timeOfDay : ℕ
deriving DecidableEq, Repr

/-- One row of the input table of `time_check`. -/
structure TimeRow where
  id : ℤ
  id_2 : ℤ
  timestamp : PdTimestamp
deriving DecidableEq, Repr

/-- Input table of `time_check`: the rows, plus the state of the
derived `day_of_week` and `time` columns (`none` while absent). -/
structure TimeTable where
  rows : List TimeRow
  day_of_week : Option (List (Fin 7))
  time : Option (List ℕ)
deriving DecidableEq, Repr

/-- Ascending order on composite groupby keys `(id, id_2)`. -/
def pairLe (a b : ℤ × ℤ) : Prop :=
  a.1 < b.1 ∨ (a.1 = b.1 ∧ a.2 ≤ b.2)

instance : DecidableRel pairLe := fun a b =>
  inferInstanceAs (Decidable (a.1 < b.1 ∨ (a.1 = b.1 ∧ a.2 ≤ b.2)))

/-- The group of rows with the given `(id, id_2)` key. -/
def time_group (rows : List TimeRow) (k : ℤ × ℤ) : List TimeRow :=
  rows.filter (fun r => r.id = k.1 ∧ r.id_2 = k.2)

/-- The completeness lambda of `time_check`, applied to one group:
minimum time of day at most `00:00:00`, maximum time of day at least
`23:59:59`, and `sorted(unique(day_of_week)) == list(range(7))`. -/
def groupComplete (g : List TimeRow) : Bool :=
  let times := g.map (fun r => r.timestamp.timeOfDay)
  let days := g.map (fun r => r.timestamp.dayOfWeek)
  match times.min?, times.max? with
  | some mn, some mx =>
      decide (mn ≤ 0) && decide (86399 ≤ mx) &&
        decide ((uniqueVals days).insertionSort (fun a b => a ≤ b) =
          List.finRange 7)
  | _, _ => false

/-- The function `time_check`, state-passing: the assignments
`df['timestamp'] = pd.to_datetime(df['timestamp'])` (a no-op here, the
model starts from parsed timestamps), `df['day_of_week'] = ...` and
`df['time'] = ...` write derived columns into the caller's DataFrame;
`df.groupby(['id', 'id_2'])` enumerates the distinct keys sorted
ascending; `.apply` evaluates the completeness lambda per group.
Returns the boolean series (as a key-indexed list) and the post-call
state of the caller's table. -/
def time_check (df : TimeTable) : List ((ℤ × ℤ) × Bool) × TimeTable :=
  let keys :=
    (uniqueVals (df.rows.map (fun r => (r.id, r.id_2)))).insertionSort pairLe
  let completeness := keys.map (fun k => (k, groupComplete (time_group df.rows k)))
  (completeness,
   { rows := df.rows
     day_of_week := some (df.rows.map (fun r => r.timestamp.dayOfWeek))
     time := some (df.rows.map (fun r => r.timestamp.timeOfDay)) })

/-- Run `generate_car_matrix` with the post-call state of its argument: the
function never assigns into `df`. -/
def generate_car_matrixRun (df : List CarRow) : CarMatrix × List CarRow :=
  (generate_car_matrix df, df)

/-- Run `get_bus_indexes` with the post-call state of its argument: the
function never assigns into `df`. -/
def get_bus_indexesRun (df : BusTable) : List ℕ × BusTable :=
  (get_bus_indexes df, df)

/-- Run `filter_routes` with the post-call state of its argument: the
function never assigns into `df`. -/
def filter_routesRun (df : RouteTable) : List String × RouteTable :=
  (filter_routes df, df)

/-- Run `multiply_matrix` with the post-call state of its argument: the
function works on `matrix.copy()` and never assigns into `matrix`. -/
def multiply_matrixRun (matrix : CarMatrix) : CarMatrix × CarMatrix :=
  (multiply_matrix matrix, matrix)

/-! ### Helper lemmas about `uniqueVals` -/

theorem mem_uniqueVals {α : Type} [DecidableEq α] (l : List α) (a : α) :
    a ∈ uniqueVals l ↔ a ∈ l := by
  induction l with
  | nil => simp [uniqueVals]
  | cons x xs ih =>
    simp only [uniqueVals, List.mem_cons, List.mem_filter, decide_eq_true_eq]
    constructor
    · rintro (rfl | ⟨h, _⟩)
      · exact Or.inl rfl
      · exact Or.inr (ih.mp h)
    · rintro (rfl | h)
      · exact Or.inl rfl
      · rcases eq_or_ne a x with rfl | hne
        · exact Or.inl rfl
        · exact Or.inr ⟨ih.mpr h, hne⟩

theorem nodup_uniqueVals {α : Type} [DecidableEq α] (l : List α) :
    (uniqueVals l).Nodup := by
  induction l with
  | nil => simp [uniqueVals]
  | cons x xs ih =>
    rw [uniqueVals, List.nodup_cons]
    exact ⟨by simp [List.mem_filter], ih.filter _⟩

theorem toFinset_uniqueVals {α : Type} [DecidableEq α] (l : List α) :
    (uniqueVals l).toFinset = l.toFinset := by
  ext a
  simp [List.mem_toFinset, mem_uniqueVals]

/-! ### Claim C1: `generate_car_matrix` -/

/-- The `car` value of the last row in input order with the given
`(id_1, id_2)` key, if any. -/
def last_car (df : List CarRow) (a b : ℤ) : Option ℚ :=
  (df.reverse.find? (fun r => decide (a = r.id_1) && decide (b = r.id_2))).map
    (fun r => r.car)

theorem foldl_matrix_set (df : List CarRow) (f : ℤ → ℤ → Option ℚ) (a b : ℤ) :
    df.foldl matrix_set f a b = (last_car df a b).elim (f a b) some := by
  induction df generalizing f with
  | nil => simp [last_car]
  | cons r t ih =>
    rw [List.foldl_cons, ih]
    simp only [last_car, List.reverse_cons, List.find?_append]
    cases h : t.reverse.find? (fun x => decide (a = x.id_1) && decide (b = x.id_2)) with
    | some r2 => simp [last_car, h]
    | none =>
      simp only [last_car, h, Option.none_orElse, Option.map_none', Option.elim_none]
      by_cases hc : a = r.id_1 ∧ b = r.id_2
      · simp [List.find?_cons, matrix_set, hc.1, hc.2]
      · have hp : (decide (a = r.id_1) && decide (b = r.id_2)) = false := by
          rcases not_and_or.mp hc with hx | hx <;> simp [hx]
        simp [List.find?_cons, hp, matrix_set, hc]

/-- C1: for every input table, `generate_car_matrix` returns a matrix
whose row labels are exactly the distinct `id_1` values and whose
column labels are exactly the distinct `id_2` values (so it has
`|distinct id_1|` rows and `|distinct id_2|` columns); cell `(a, b)`
holds the `car` value of the last row in input order with key
`(a, b)`; a cell whose key occurs in no row is unset; an empty input
yields an empty matrix. -/
theorem generate_car_matrix_spec (df : List CarRow) :
    (generate_car_matrix df).rowLabels.Nodup ∧
    (generate_car_matrix df).rowLabels.toFinset =
      (df.map (fun r => r.id_1)).toFinset ∧
    (generate_car_matrix df).rowLabels.length =
      (df.map (fun r => r.id_1)).toFinset.card ∧
    (generate_car_matrix df).colLabels.Nodup ∧
    (generate_car_matrix df).colLabels.toFinset =
      (df.map (fun r => r.id_2)).toFinset ∧
    (generate_car_matrix df).colLabels.length =
      (df.map (fun r => r.id_2)).toFinset.card ∧
    (∀ a b, (generate_car_matrix df).cell a b = last_car df a b) ∧
    (∀ a b, (∀ r ∈ df, ¬(r.id_1 = a ∧ r.id_2 = b)) →
      (generate_car_matrix df).cell a b = none) ∧
    (df = [] →
      (generate_car_matrix df).rowLabels = [] ∧
      (generate_car_matrix df).colLabels = []) := by
  have hcell : ∀ a b, (generate_car_matrix df).cell a b = last_car df a b := by
    intro a b
    rw [show (generate_car_matrix df).cell = df.foldl matrix_set (fun _ _ => none)
        from rfl, foldl_matrix_set]
    cases last_car df a b <;> rfl
  refine ⟨nodup_uniqueVals _, toFinset_uniqueVals _, ?_, nodup_uniqueVals _,
    toFinset_uniqueVals _, ?_, hcell, ?_, ?_⟩
  · rw [← toFinset_uniqueVals (df.map (fun r => r.id_1))]
    exact (List.toFinset_card_of_nodup (nodup_uniqueVals _)).symm
  · rw [← toFinset_uniqueVals (df.map (fun r => r.id_2))]
    exact (List.toFinset_card_of_nodup (nodup_uniqueVals _)).symm
  · intro a b hnone
    rw [hcell a b, last_car, List.find?_eq_none.mpr, Option.map_none']
    intro r hr
    simp only [Bool.and_eq_true, decide_eq_true_eq, not_and]
    intro h1 h2
    exact hnone r (List.mem_reverse.mp hr) ⟨h1.symm, h2.symm⟩
  · rintro rfl
    exact ⟨rfl, rfl⟩

/-- Witness for C1 at concrete inputs. -/
theorem generate_car_matrix_spec_witness :
    (generate_car_matrix ([] : List CarRow)).rowLabels = [] ∧
    (generate_car_matrix [(⟨1, 2, 5⟩ : CarRow)]).cell 9 9 = none := by
  refine ⟨((generate_car_matrix_spec []).2.2.2.2.2.2.2.2 rfl).1, ?_⟩
  exact (generate_car_matrix_spec [⟨1, 2, 5⟩]).2.2.2.2.2.2.2.1 9 9
    (by intro r hr; simp at hr; subst hr; simp)

/-! ### Claims C2 and C3: `get_type_count` -/

theorem count_label_low (l : List ℚ) :
    (l.map car_type_label).count "low" =
      l.countP (fun v => decide (v < 15)) := by
  induction l with
  | nil => rfl
  | cons v t ih =>
    simp only [List.map_cons, List.count_cons, List.countP_cons, ih,
      car_type_label]
    by_cases h1 : v < 15
    · simp [h1]
    · by_cases h2 : v < 25 <;> simp [h1, h2]

theorem count_label_medium (l : List ℚ) :
    (l.map car_type_label).count "medium" =
      l.countP (fun v => decide (15 ≤ v ∧ v < 25)) := by
  induction l with
  | nil => rfl
  | cons v t ih =>
    simp only [List.map_cons, List.count_cons, List.countP_cons, ih,
      car_type_label]
    by_cases h1 : v < 15
    · have hm : ¬(15 ≤ v ∧ v < 25) := fun h => absurd h.1 (not_le.mpr h1)
      simp [h1, hm]
    · by_cases h2 : v < 25
      · have hm : 15 ≤ v ∧ v < 25 := ⟨not_lt.mp h1, h2⟩
        simp [h1, h2, hm]
      · have hm : ¬(15 ≤ v ∧ v < 25) := fun h => absurd h.2 h2
        simp [h1, h2, hm]

theorem count_label_high (l : List ℚ) :
    (l.map car_type_label).count "high" =
      l.countP (fun v => decide (25 ≤ v)) := by
  induction l with
  | nil => rfl
  | cons v t ih =>
    simp only [List.map_cons, List.count_cons, List.countP_cons, ih,
      car_type_label]
    by_cases h1 : v < 15
    · have h3 : ¬(25 ≤ v) := not_le.mpr (lt_trans h1 (by norm_num))
      simp [h1, h3]
    · by_cases h2 : v < 25
      · have h3 : ¬(25 ≤ v) := not_le.mpr h2
        simp [h1, h2, h3]
      · simp [h1, h2, not_lt.mp h2]

theorem car_counts_sum (l : List ℚ) :
    l.countP (fun v => decide (v < 15)) +
      l.countP (fun v => decide (15 ≤ v ∧ v < 25)) +
      l.countP (fun v => decide (25 ≤ v)) = l.length := by
  simp only [Bool.decide_and]
  induction l with
  | nil => rfl
  | cons v t ih =>
    simp only [List.countP_cons, List.length_cons]
    by_cases h1 : v < 15
    · have ha : ¬(15 ≤ v) := not_le.mpr h1
      have hc : ¬(25 ≤ v) := not_le.mpr (lt_trans h1 (by norm_num))
      simp [h1, ha, hc]
      omega
    · by_cases h2 : v < 25
      · have ha : 15 ≤ v := not_lt.mp h1
        have hc : ¬(25 ≤ v) := not_le.mpr h2
        simp [h1, h2, ha, hc]
        omega
      · have hc : 25 ≤ v := le_trans (by norm_num) (not_lt.mp h2)
        simp [h1, h2, hc]
        omega

/-- C2: the mapping returned by `get_type_count` sends `low` to the
number of rows with `car < 15`, `medium` to the number with
`15 ≤ car < 25`, `high` to the number with `car ≥ 25`; the three counts
sum to the row count; and the entries are ordered alphabetically by
label. -/
theorem get_type_count_spec (df : CarTable) :
    (get_type_count df).1 =
      [("high", df.car.countP (fun v => decide (25 ≤ v))),
       ("low", df.car.countP (fun v => decide (v < 15))),
       ("medium", df.car.countP (fun v => decide (15 ≤ v ∧ v < 25)))] ∧
    df.car.countP (fun v => decide (v < 15)) +
      df.car.countP (fun v => decide (15 ≤ v ∧ v < 25)) +
      df.car.countP (fun v => decide (25 ≤ v)) = df.car.length ∧
    List.Chain' (fun a b : String => a < b)
      ((get_type_count df).1.map Prod.fst) := by
  refine ⟨?_, car_counts_sum df.car, ?_⟩
  · simp [get_type_count, count_label_high, count_label_low, count_label_medium]
  · have hk : (get_type_count df).1.map Prod.fst = ["high", "low", "medium"] := by
      simp [get_type_count]
    rw [hk]
    simp only [List.chain'_cons, List.chain'_singleton, and_true,
      String.lt_iff_toList_lt]
    exact ⟨by decide, by decide⟩

/-- C3 counterexample: on the table whose single `car` value is 10 the
returned mapping contains the key `medium` although no row falls in the
medium category. -/
theorem get_type_count_zero_count_key :
    ("medium", 0) ∈ (get_type_count ⟨[10], none⟩).1 ∧
    [(10 : ℚ)].countP (fun v => decide (15 ≤ v ∧ v < 25)) = 0 := by
  constructor
  · simp [get_type_count, car_type_label, show (10 : ℚ) < 15 by norm_num]
  · decide

/-- C3 (amended): the mapping returned by `get_type_count` always
contains exactly the three labels `high`, `low`, `medium` (in that,
alphabetical, order); a label whose category matches zero rows still
appears, with count 0. -/
theorem get_type_count_keys (df : CarTable) :
    (get_type_count df).1.map Prod.fst = ["high", "low", "medium"] := by
  simp [get_type_count]

/-! ### Claims C4 and C5: `get_bus_indexes` -/

theorem filtered_indices_spec (l : List ℚ) (t : ℚ) :
    (∀ i, i ∈ ((l.enum.filter (fun p => nan_lt (some t) p.2)).map
        Prod.fst).insertionSort (fun i j : ℕ => i ≤ j) ↔
      ∃ v, l[i]? = some v ∧ t < v) ∧
    List.Sorted (fun i j : ℕ => i < j)
      (((l.enum.filter (fun p => nan_lt (some t) p.2)).map
        Prod.fst).insertionSort (fun i j : ℕ => i ≤ j)) ∧
    (((l.enum.filter (fun p => nan_lt (some t) p.2)).map
        Prod.fst).insertionSort (fun i j : ℕ => i ≤ j)).Nodup := by
  have hpair : List.Pairwise (fun i j : ℕ => i < j)
      ((l.enum.filter (fun p => nan_lt (some t) p.2)).map Prod.fst) := by
    have hsub : List.Sublist
        ((l.enum.filter (fun p => nan_lt (some t) p.2)).map Prod.fst)
        (l.enum.map Prod.fst) :=
      (List.filter_sublist l.enum).map Prod.fst
    rw [List.enum_map_fst] at hsub
    exact (List.pairwise_lt_range l.length).sublist hsub
  have hsorted : List.Sorted (fun i j : ℕ => i ≤ j)
      ((l.enum.filter (fun p => nan_lt (some t) p.2)).map Prod.fst) :=
    hpair.imp le_of_lt
  rw [hsorted.insertionSort_eq]
  refine ⟨?_, hpair, hpair.imp ne_of_lt⟩
  intro i
  simp only [List.mem_map, List.mem_filter]
  constructor
  · rintro ⟨⟨j, v⟩, ⟨henum, hp⟩, rfl⟩
    rw [List.mk_mem_enum_iff_getElem?] at henum
    refine ⟨v, henum, ?_⟩
    simpa [nan_lt] using hp
  · rintro ⟨v, hv, htv⟩
    refine ⟨(i, v), ⟨?_, ?_⟩, rfl⟩
    · exact List.mk_mem_enum_iff_getElem?.mpr hv
    · simpa [nan_lt] using htv

/-- C4: for every table with a non-empty `bus` column,
`get_bus_indexes` returns exactly the positional indices whose `bus`
value strictly exceeds twice the arithmetic mean of the column, in
strictly ascending order with no duplicates (an index whose value
equals exactly twice the mean is excluded by the strict
inequality). -/
theorem get_bus_indexes_spec (df : BusTable) (h : df.bus ≠ []) :
    (∀ i, i ∈ get_bus_indexes df ↔
      ∃ v, df.bus[i]? = some v ∧ 2 * (df.bus.sum / df.bus.length) < v) ∧
    List.Sorted (fun i j : ℕ => i < j) (get_bus_indexes df) ∧
    (get_bus_indexes df).Nodup := by
  have hlen : df.bus.length ≠ 0 := fun hl => h (List.length_eq_zero.mp hl)
  have hmean : (series_mean df.bus).map (fun m => 2 * m) =
      some (2 * (df.bus.sum / df.bus.length)) := by
    simp [series_mean, hlen]
  have hrw : get_bus_indexes df =
      ((df.bus.enum.filter
        (fun p => nan_lt (some (2 * (df.bus.sum / df.bus.length))) p.2)).map
          Prod.fst).insertionSort (fun i j : ℕ => i ≤ j) := by
    simp only [get_bus_indexes, hmean]
  rw [hrw]
  exact filtered_indices_spec df.bus (2 * (df.bus.sum / df.bus.length))

/-- Witness for C4 at the spec's own example `bus = [1, 1, 1, 10]`
(mean 3.25, threshold 6.5): index 3 is reported and the output is
strictly ascending. -/
theorem get_bus_indexes_spec_witness :
    3 ∈ get_bus_indexes ⟨[1, 1, 1, 10]⟩ ∧
    List.Sorted (fun i j : ℕ => i < j) (get_bus_indexes ⟨[1, 1, 1, 10]⟩) := by
  have h := get_bus_indexes_spec ⟨[1, 1, 1, 10]⟩ (by simp)
  refine ⟨(h.1 3).mpr ⟨10, rfl, ?_⟩, h.2.1⟩
  norm_num

/-- C5 counterexample: on a table whose `bus` column is empty, the mean
is NaN (`series_mean` returns the NaN sentinel `none`), yet the call
returns the plain empty list — an ordinary result indistinguishable
from a valid one; no error surfaces and no NaN reaches the caller. -/
theorem get_bus_indexes_empty_ordinary :
    get_bus_indexes ⟨[]⟩ = ([] : List ℕ) ∧ series_mean [] = none :=
  ⟨rfl, rfl⟩

/-- C5 (amended): when the `bus` column has zero rows its mean is NaN,
every comparison against NaN is false, and `get_bus_indexes` silently
returns the empty list as if the input were an ordinary valid table;
the undefined mean is absorbed, not propagated. -/
theorem get_bus_indexes_empty (df : BusTable) (h : df.bus = []) :
    get_bus_indexes df = [] := by
  obtain ⟨bus⟩ := df
  simp only at h
  subst h
  rfl

/-- Witness for C5 (amended) at the empty table. -/
theorem get_bus_indexes_empty_witness : get_bus_indexes ⟨[]⟩ = [] :=
  get_bus_indexes_empty ⟨[]⟩ rfl

/-! ### Claim C6: `multiply_matrix` -/

/-- C6: `multiply_matrix` keeps the shape of its input; every present
cell `v` is replaced by `round(v * 0.75, 1)` when `v > 20` and by
`round(v * 1.25, 1)` when `v ≤ 20` (exactly one branch, chosen from the
original value); every unset cell stays unset; and the input matrix is
unchanged after the call. -/
theorem multiply_matrix_spec (m : CarMatrix) :
    (multiply_matrix m).rowLabels = m.rowLabels ∧
    (multiply_matrix m).colLabels = m.colLabels ∧
    (∀ a b, (multiply_matrix m).cell a b =
      (m.cell a b).map (fun v =>
        if 20 < v then round1 (v * (3 / 4)) else round1 (v * (5 / 4)))) ∧
    (∀ a b, m.cell a b = none → (multiply_matrix m).cell a b = none) ∧
    (multiply_matrixRun m).2 = m := by
  have hcell : ∀ a b, (multiply_matrix m).cell a b =
      (m.cell a b).map (fun v =>
        if 20 < v then round1 (v * (3 / 4)) else round1 (v * (5 / 4))) := by
    intro a b
    cases hc : m.cell a b with
    | none => simp [multiply_matrix, maskedMul, hc]
    | some v =>
      by_cases hv : 20 < v
      · simp [multiply_matrix, maskedMul, hc, hv, not_le.mpr hv]
      · simp [multiply_matrix, maskedMul, hc, hv, not_lt.mp hv]
  refine ⟨rfl, rfl, hcell, ?_, rfl⟩
  intro a b hnone
  rw [hcell a b, hnone]
  rfl

/-- Witness for C6 at a one-cell matrix holding 24: the cell becomes
`round(24 * 0.75, 1) = 18` and an absent cell stays absent. -/
theorem multiply_matrix_spec_witness :
    (multiply_matrix ⟨[1], [2], fun a b =>
      if a = 1 ∧ b = 2 then some 24 else none⟩).cell 1 2 =
      some (round1 (24 * (3 / 4))) ∧
    round1 (24 * (3 / 4)) = 18 ∧
    (multiply_matrix ⟨[1], [2], fun a b =>
      if a = 1 ∧ b = 2 then some 24 else none⟩).cell 0 0 = none := by
  have h := multiply_matrix_spec ⟨[1], [2], fun a b =>
    if a = 1 ∧ b = 2 then some 24 else none⟩
  refine ⟨?_, ?_, ?_⟩
  · rw [h.2.2.1 1 2]
    norm_num
  · norm_num [round1, roundHalfEven]
  · exact h.2.2.2.1 0 0 (by norm_num)

/-! ### Claim C8: which functions mutate their caller's table -/

/-- C8 counterexample: `get_type_count` writes the derived `car_type`
column into its caller's table, so the caller-owned input is changed by
the call. -/
theorem get_type_count_mutates :
    (get_type_count ⟨[10], none⟩).2 ≠ (⟨[10], none⟩ : CarTable) := by
  intro heq
  have h' := congrArg CarTable.car_type heq
  simp [get_type_count] at h'

/-- C8 (amended): `generate_car_matrix`, `get_bus_indexes`,
`filter_routes` and `multiply_matrix` leave the caller's argument
unchanged, but `get_type_count` writes the derived `car_type` column
into the caller's table and `time_check` writes the derived
`day_of_week` and `time` columns into the caller's table; whenever the
derived columns were absent before the call, the caller's table after
the call differs from the one passed in. -/
theorem mutation_profile (df1 : List CarRow) (df2 : CarTable)
    (df3 : BusTable) (df4 : RouteTable) (m : CarMatrix) (df6 : TimeTable)
    (h2 : df2.car_type = none) (h6 : df6.day_of_week = none) :
    (generate_car_matrixRun df1).2 = df1 ∧
    (get_bus_indexesRun df3).2 = df3 ∧
    (filter_routesRun df4).2 = df4 ∧
    (multiply_matrixRun m).2 = m ∧
    (get_type_count df2).2 =
      { car := df2.car, car_type := some (df2.car.map car_type_label) } ∧
    (get_type_count df2).2 ≠ df2 ∧
    (time_check df6).2 =
      { rows := df6.rows,
        day_of_week := some (df6.rows.map (fun r => r.timestamp.dayOfWeek)),
        time := some (df6.rows.map (fun r => r.timestamp.timeOfDay)) } ∧
    (time_check df6).2 ≠ df6 := by
  refine ⟨rfl, rfl, rfl, rfl, rfl, ?_, rfl, ?_⟩
  · intro heq
    have h' := congrArg CarTable.car_type heq
    rw [h2] at h'
    simp [get_type_count] at h'
  · intro heq
    have h' := congrArg TimeTable.day_of_week heq
    rw [h6] at h'
    simp [time_check] at h'

/-- Witness for C8 at concrete tables with the derived columns
absent. -/
theorem mutation_profile_witness :
    (get_type_count ⟨[10], none⟩).2 ≠ (⟨[10], none⟩ : CarTable) ∧
    (time_check ⟨[], none, none⟩).2 ≠ (⟨[], none, none⟩ : TimeTable) := by
  have h := mutation_profile [] ⟨[10], none⟩ ⟨[]⟩ ⟨[]⟩
    ⟨[], [], fun _ _ => none⟩ ⟨[], none, none⟩ rfl rfl
  exact ⟨h.2.2.2.2.2.1, h.2.2.2.2.2.2.2⟩

/-! ### Claim C9: re-running on the same table is repeatable -/

/-- C9: calling each function a second time, on the table object
exactly as the first call left it, yields output identical to the
first call; in particular `multiply_matrix` leaves its input unchanged
and re-running it on that unchanged input repeats the output. The
functions that write derived columns (`get_type_count`, `time_check`)
recompute them from the untouched base columns, so their second run
also repeats the first. -/
theorem rerun_repeatable (df1 : List CarRow) (df2 : CarTable)
    (df3 : BusTable) (df4 : RouteTable) (m : CarMatrix) (df6 : TimeTable) :
    (generate_car_matrixRun (generate_car_matrixRun df1).2).1 =
      (generate_car_matrixRun df1).1 ∧
    (get_bus_indexesRun (get_bus_indexesRun df3).2).1 =
      (get_bus_indexesRun df3).1 ∧
    (filter_routesRun (filter_routesRun df4).2).1 =
      (filter_routesRun df4).1 ∧
    (multiply_matrixRun m).2 = m ∧
    (multiply_matrixRun (multiply_matrixRun m).2).1 =
      (multiply_matrixRun m).1 ∧
    (get_type_count (get_type_count df2).2).1 = (get_type_count df2).1 ∧
    (time_check (time_check df6).2).1 = (time_check df6).1 :=
  ⟨rfl, rfl, rfl, rfl, rfl, rfl, rfl⟩

/-! ### Claims C7 and C10: `time_check` -/

instance : IsTrans (ℤ × ℤ) pairLe := by
  constructor
  intro a b c hab hbc
  obtain ⟨a1, a2⟩ := a
  obtain ⟨b1, b2⟩ := b
  obtain ⟨c1, c2⟩ := c
  simp only [pairLe] at hab hbc ⊢
  omega

instance : IsTotal (ℤ × ℤ) pairLe := by
  constructor
  intro a b
  obtain ⟨a1, a2⟩ := a
  obtain ⟨b1, b2⟩ := b
  simp only [pairLe]
  omega

instance : IsAntisymm (ℤ × ℤ) pairLe := by
  constructor
  intro a b hab hba
  obtain ⟨a1, a2⟩ := a
  obtain ⟨b1, b2⟩ := b
  simp only [pairLe] at hab hba
  simp only [Prod.mk.injEq]
  omega

theorem toFinset_eq_of_perm {α : Type} [DecidableEq α] {l1 l2 : List α}
    (h : l1.Perm l2) : l1.toFinset = l2.toFinset := by
  ext a
  simp [List.mem_toFinset, h.mem_iff]

theorem toFinset_finRange7 :
    (List.finRange 7).toFinset = (Finset.univ : Finset (Fin 7)) := by
  ext a
  simp [List.mem_finRange]

theorem sorted_le_finRange7 :
    List.Sorted (fun a b : Fin 7 => a ≤ b) (List.finRange 7) :=
  List.pairwise_le_finRange 7

/-- The day-of-week test of `time_check`,
`sorted(unique(day_of_week)) == list(range(7))`, holds exactly when the
set of distinct days equals the full 7-day set. -/
theorem days_cover_iff (days : List (Fin 7)) :
    (uniqueVals days).insertionSort (fun a b => a ≤ b) = List.finRange 7 ↔
      days.toFinset = Finset.univ := by
  have hperm : List.Perm
      ((uniqueVals days).insertionSort (fun a b => a ≤ b)) (uniqueVals days) :=
    List.perm_insertionSort _ _
  constructor
  · intro h
    rw [← toFinset_uniqueVals days, ← toFinset_eq_of_perm hperm, h,
      toFinset_finRange7]
  · intro h
    refine List.eq_of_perm_of_sorted ?_ (List.sorted_insertionSort _ _)
      sorted_le_finRange7
    apply List.perm_of_nodup_nodup_toFinset_eq
      (hperm.nodup_iff.mpr (nodup_uniqueVals days)) (List.nodup_finRange 7)
    rw [toFinset_eq_of_perm hperm, toFinset_uniqueVals, h, toFinset_finRange7]

/-- The completeness lambda is true on a group exactly when some row's
time of day is at `00:00:00` or earlier, some row's time of day is at
`23:59:59` or later, and the distinct days of week cover the whole
week. -/
theorem groupComplete_iff (g : List TimeRow) :
    groupComplete g = true ↔
      ((∃ r ∈ g, r.timestamp.timeOfDay ≤ 0) ∧
       (∃ r ∈ g, 86399 ≤ r.timestamp.timeOfDay) ∧
       (g.map (fun r => r.timestamp.dayOfWeek)).toFinset = Finset.univ) := by
  cases g with
  | nil => simp [groupComplete]
  | cons r0 rest =>
    obtain ⟨mn, hmn⟩ : ∃ mn,
        ((r0 :: rest).map (fun r => r.timestamp.timeOfDay)).min? = some mn := by
      rw [List.map_cons, List.min?_cons']
      exact ⟨_, rfl⟩
    obtain ⟨mx, hmx⟩ : ∃ mx,
        ((r0 :: rest).map (fun r => r.timestamp.timeOfDay)).max? = some mx := by
      rw [List.map_cons, List.max?_cons']
      exact ⟨_, rfl⟩
    have hmn' := List.min?_eq_some_iff'.mp hmn
    have hmx' := List.max?_eq_some_iff'.mp hmx
    simp only [groupComplete]
    rw [hmn, hmx]
    simp only [Bool.and_eq_true, decide_eq_true_eq]
    rw [days_cover_iff]
    constructor
    · rintro ⟨⟨h1, h2⟩, h3⟩
      obtain ⟨r1, hr1, hre1⟩ := List.mem_map.mp hmn'.1
      obtain ⟨r2, hr2, hre2⟩ := List.mem_map.mp hmx'.1
      refine ⟨⟨r1, hr1, ?_⟩, ⟨r2, hr2, ?_⟩, h3⟩
      · rw [hre1]
        exact h1
      · rw [hre2]
        exact h2
    · rintro ⟨⟨r1, hr1, h1⟩, ⟨r2, hr2, h2⟩, h3⟩
      refine ⟨⟨?_, ?_⟩, h3⟩
      · exact le_trans
          (hmn'.2 _ (List.mem_map_of_mem (fun r => r.timestamp.timeOfDay) hr1)) h1
      · exact le_trans h2
          (hmx'.2 _ (List.mem_map_of_mem (fun r => r.timestamp.timeOfDay) hr2))

/-- C7: an entry `(k, b)` of the series returned by `time_check` has
`b = true` exactly when, in the group of rows with key `k`, the
minimum time of day is at most `00:00:00`, the maximum time of day is
at least `23:59:59`, and the distinct days of week equal the full set
`{0, …, 6}`; a group failing any of the three conditions is marked
`false`. -/
theorem time_check_complete_iff (df : TimeTable) (k : ℤ × ℤ) (b : Bool)
    (hmem : (k, b) ∈ (time_check df).1) :
    b = true ↔
      ((∃ r ∈ time_group df.rows k, r.timestamp.timeOfDay ≤ 0) ∧
       (∃ r ∈ time_group df.rows k, 86399 ≤ r.timestamp.timeOfDay) ∧
       ((time_group df.rows k).map (fun r => r.timestamp.dayOfWeek)).toFinset =
         Finset.univ) := by
  have hb : b = groupComplete (time_group df.rows k) := by
    simp only [time_check, List.mem_map] at hmem
    obtain ⟨k2, hk2, heq⟩ := hmem
    rw [Prod.mk.injEq] at heq
    obtain ⟨rfl, rfl⟩ := heq
    rfl
  rw [hb]
  exact groupComplete_iff _

/-- Rows of one group covering all seven weekdays, with one timestamp
at `00:00:00` and one at `23:59:59`. -/
def sampleWeekRows : List TimeRow :=
  [⟨1, 1, ⟨0, 0⟩⟩, ⟨1, 1, ⟨1, 3600⟩⟩, ⟨1, 1, ⟨2, 7200⟩⟩, ⟨1, 1, ⟨3, 10800⟩⟩,
   ⟨1, 1, ⟨4, 14400⟩⟩, ⟨1, 1, ⟨5, 18000⟩⟩, ⟨1, 1, ⟨6, 86399⟩⟩]

/-- Witness for C7: on `sampleWeekRows` the group `(1, 1)` is marked
`true`, so the three completeness conditions hold there. -/
theorem time_check_complete_iff_witness :
    (∃ r ∈ time_group sampleWeekRows (1, 1), r.timestamp.timeOfDay ≤ 0) ∧
    (∃ r ∈ time_group sampleWeekRows (1, 1), 86399 ≤ r.timestamp.timeOfDay) ∧
    ((time_group sampleWeekRows (1, 1)).map
      (fun r => r.timestamp.dayOfWeek)).toFinset = Finset.univ :=
  (time_check_complete_iff ⟨sampleWeekRows, none, none⟩ (1, 1) true
    (by decide)).mp rfl

/-- C10: the series returned by `time_check` has exactly one entry per
distinct `(id, id_2)` pair present in the input, its keys are ordered
ascending by the composite key, and the key sequence is the same for
any reordering of the input rows. -/
theorem time_check_index_spec (df : TimeTable) :
    ((time_check df).1.map Prod.fst).Nodup ∧
    List.Sorted pairLe ((time_check df).1.map Prod.fst) ∧
    ((time_check df).1.map Prod.fst).toFinset =
      (df.rows.map (fun r => (r.id, r.id_2))).toFinset ∧
    (∀ rows2 : List TimeRow, rows2.Perm df.rows →
      (time_check ⟨rows2, df.day_of_week, df.time⟩).1.map Prod.fst =
        (time_check df).1.map Prod.fst) := by
  have h1 : ∀ t : TimeTable, (time_check t).1.map Prod.fst =
      (uniqueVals (t.rows.map (fun r => (r.id, r.id_2)))).insertionSort pairLe := by
    intro t
    simp only [time_check, List.map_map]
    exact List.map_id'' (fun x => rfl) _
  refine ⟨?_, ?_, ?_, ?_⟩
  · rw [h1]
    exact ((List.perm_insertionSort pairLe _).nodup_iff).mpr (nodup_uniqueVals _)
  · rw [h1]
    exact List.sorted_insertionSort pairLe _
  · rw [h1, toFinset_eq_of_perm (List.perm_insertionSort pairLe _),
      toFinset_uniqueVals]
  · intro rows2 hperm
    rw [h1, h1]
    refine List.eq_of_perm_of_sorted ?_ (List.sorted_insertionSort pairLe _)
      (List.sorted_insertionSort pairLe _)
    apply List.perm_of_nodup_nodup_toFinset_eq
      (((List.perm_insertionSort pairLe _).nodup_iff).mpr (nodup_uniqueVals _))
      (((List.perm_insertionSort pairLe _).nodup_iff).mpr (nodup_uniqueVals _))
    rw [toFinset_eq_of_perm (List.perm_insertionSort pairLe _),
      toFinset_uniqueVals,
      toFinset_eq_of_perm (List.perm_insertionSort pairLe _),
      toFinset_uniqueVals]
    exact toFinset_eq_of_perm (hperm.map _)

/-- A row with key `(2, 0)`. -/
def rowKey20 : TimeRow := ⟨2, 0, ⟨0, 0⟩⟩

/-- A row with key `(1, 0)`. -/
def rowKey10 : TimeRow := ⟨1, 0, ⟨0, 0⟩⟩

/-- Witness for C10: swapping the two rows of a table leaves the key
sequence of the returned series unchanged. -/
theorem time_check_index_spec_witness :
    (time_check ⟨[rowKey10, rowKey20], none, none⟩).1.map Prod.fst =
      (time_check ⟨[rowKey20, rowKey10], none, none⟩).1.map Prod.fst :=
  (time_check_index_spec ⟨[rowKey20, rowKey10], none, none⟩).2.2.2
    [rowKey10, rowKey20] (List.Perm.swap rowKey20 rowKey10 [])
